import Mathlib

/-!
Verification development for the MX Tweaks Pro permission gate and
backup/checkpoint subsystem.

The definitions below are a shallow embedding of the Python sources:

* `src/backup_manager.py` — `BackupManager.create_backup`, `list_backups`,
  `restore_backup`, `cleanup_old_backups`;
* `src/config_manager.py` — `check_root_access`, `require_root_access`,
  `_restart_with_pkexec`, `check_operation_permissions`;
* `src/cli_interface.py` — `check_and_handle_root_requirement` and the
  menu-level gating pattern `if check_and_handle_root_requirement(...): handler()`;
* `src/advanced_tweaks_engine.py` — `execute_command`, `create_system_checkpoint`.

Filesystem paths are modelled structurally as their component lists
(`FsPath := List String`), so `Path(p).name` becomes the last component.
File contents are `FileContent` values: ordinary bytes abstracted as a
`Nat`, or the serialized metadata record that `json.dump` writes.  A
filesystem is an association list from paths to contents in which the most
recent write is consed to the front (so `List.lookup` returns the current
content).
Exceptions raised by individual `shutil.copy2` calls are modelled by a
failure oracle `fails : path → Bool` supplied by the environment.
-/

namespace MXTweaks

/-- A filesystem path, as its list of components (`Path("/etc/fstab")` is
`["etc", "fstab"]`). -/
abbrev FsPath := List String

/-- Model of `Path(p).name`: the final component of a path. -/
def basename (p : FsPath) : String := p.getLastD ""

/-- The per-checkpoint metadata record written by `create_backup`
(backup_manager.py lines 40-48): fields `name`, `timestamp`, `files`
(the `backed_up_files` list) and `created_at`.  `created_at` is an
ISO-8601 string in the source, which sorts chronologically; it is modelled
as a `Nat` timestamp. -/
structure Metadata where
  name : String
  timestamp : String
  files : List FsPath
  created_at : Nat
deriving Repr, DecidableEq

/-- The content of one file: either ordinary bytes (abstract, as a `Nat`)
or the serialized JSON record that `json.dump` writes to `metadata.json`.
The serialization is injective and distinct from the modelled source-file
bytes; `json.load` parses exactly the `record` contents. -/
inductive FileContent where
  | bytes (c : Nat)
  | record (m : Metadata)
deriving Repr, DecidableEq

/-- A filesystem: association list path ↦ content, most recent write first.
`lookup` returns the current content; absence means the path does not exist
(`os.path.exists` is false). -/
abbrev FS := List (FsPath × FileContent)

/-- One checkpoint directory inside the backup store: its directory name
(`f"{name}_{timestamp}"`) and its files keyed by name, most recent write
first.  `create_backup` stores the copies under their basenames and the
metadata record under the name `metadata.json` in the same namespace, so a
copy named `metadata.json` is clobbered by the record written after it. -/
structure CkptDir where
  dirName : String
  files : List (String × FileContent)
deriving Repr, DecidableEq

/-- Read `backup_dir / 'metadata.json'`: `some m` when the file exists and
`json.load` parses it as a record; `none` when it is missing or
unparseable — `list_backups` and `restore_backup` treat those two cases
alike (skip with a logged error, resp. return `False`). -/
def readMeta (d : CkptDir) : Option Metadata :=
  match d.files.lookup "metadata.json" with
  | some (.record m) => some m
  | _ => none

/-- The backup store (`~/.config/mx-tweaks-pro/backups`): its checkpoint
directories in directory-iteration order; `create_backup` appends new
directories at the end. -/
abbrev Store := List CkptDir

/-- Find the checkpoint directory with the given name
(`self.backup_dir / backup_name`). -/
def findDir (store : Store) (name : String) : Option CkptDir :=
  store.find? (fun d => d.dirName == name)

/-- The copy loop of `create_backup` (backup_manager.py lines 29-37):
for each path, if it exists (`os.path.exists`) try `shutil.copy2` into the
checkpoint directory under the path's basename; on success append the path
to `backed_up_files`; a raised copy error (`fails p`) is logged and the
loop continues.  Returns the directory contents and `backed_up_files`. -/
def copyFiles (fs : FS) (fails : FsPath → Bool)
    (d : List (String × FileContent)) :
    List FsPath → List (String × FileContent) × List FsPath
  | [] => (d, [])
  | p :: rest =>
    match fs.lookup p with
    | none => copyFiles fs fails d rest
    | some c =>
      if fails p then copyFiles fs fails d rest
      else
        let r := copyFiles fs fails ((basename p, c) :: d) rest
        (r.1, p :: r.2)

/-- Model of `BackupManager.create_backup` (backup_manager.py lines 20-50):
builds `backup_name = f"{name}_{timestamp}"`, creates the directory with
`mkdir(exist_ok=True)` (so an existing directory of the same name is
reused), runs the copy loop, then writes the metadata record to
`backup_path / 'metadata.json'` — inside the directory, after the copies,
overwriting any copy of that name — and returns the backup name.  `now` is the `datetime.now().isoformat()` value used for
`created_at`. -/
def create_backup (store : Store) (fs : FS) (name timestamp : String)
    (now : Nat) (files_to_backup : List FsPath) (fails : FsPath → Bool) :
    Store × String :=
  let backup_name := name ++ "_" ++ timestamp
  let d0 := match findDir store backup_name with
            | some dir => dir.files
            | none => []
  let r := copyFiles fs fails d0 files_to_backup
  let meta : Metadata :=
    { name := name, timestamp := timestamp, files := r.2, created_at := now }
  let newDir : CkptDir :=
    { dirName := backup_name
    , files := ("metadata.json", FileContent.record meta) :: r.1 }
  let store2 :=
    match findDir store backup_name with
    | some _ => store.map (fun d => if d.dirName == backup_name then newDir else d)
    | none => store ++ [newDir]
  (store2, backup_name)

/-- One entry of the list returned by `list_backups`: the checkpoint
directory path and its parsed metadata. -/
structure BackupEntry where
  path : String
  metadata : Metadata
deriving Repr, DecidableEq

/-- Insert one entry into a list already sorted by `created_at` descending,
after every entry with a strictly larger key (Python's stable
`sorted(..., reverse=True)` keeps earlier entries first on ties). -/
def insertByCreatedDesc (x : BackupEntry) : List BackupEntry → List BackupEntry
  | [] => [x]
  | y :: ys =>
    if x.metadata.created_at < y.metadata.created_at then
      y :: insertByCreatedDesc x ys
    else x :: y :: ys

/-- Stable sort by `created_at` descending, modelling
`sorted(backups, key=lambda x: x['metadata']['created_at'], reverse=True)`. -/
def sortByCreatedDesc : List BackupEntry → List BackupEntry
  | [] => []
  | x :: xs => insertByCreatedDesc x (sortByCreatedDesc xs)

/-- Model of `BackupManager.list_backups` (backup_manager.py lines 52-70): scan the
store's directories, keep only those whose `metadata.json` exists and
parses, and sort the result newest-first by `created_at`.  Directories
without a readable metadata record contribute nothing. -/
def list_backups (store : Store) : List BackupEntry :=
  sortByCreatedDesc
    (store.filterMap (fun d => (readMeta d).map (fun m => ⟨d.dirName, m⟩)))

/-- The restore loop of `restore_backup` (backup_manager.py lines 89-98):
for each original path recorded in the metadata, if the copy is present in
the checkpoint directory try `shutil.copy2` back over the original path;
a raised copy error (`fails p`) is logged and the loop continues.  Returns
the updated filesystem and `restored_files`. -/
def restoreFiles (dfiles : List (String × FileContent))
    (fails : FsPath → Bool) (fs : FS) : List FsPath → FS × List FsPath
  | [] => (fs, [])
  | p :: rest =>
    match dfiles.lookup (basename p) with
    | none => restoreFiles dfiles fails fs rest
    | some c =>
      if fails p then restoreFiles dfiles fails fs rest
      else
        let r := restoreFiles dfiles fails ((p, c) :: fs) rest
        (r.1, p :: r.2)

/-- Model of `BackupManager.restore_backup` (backup_manager.py lines 72-104):
fails when the checkpoint directory or a parseable metadata record is
missing; otherwise runs the restore loop over the directory's files — in
which `metadata.json` always names the record, so a recorded path with
that basename gets the record's bytes — and returns
`len(restored_files) > 0`. -/
def restore_backup (store : Store) (fs : FS) (backup_name : String)
    (fails : FsPath → Bool) : FS × Bool :=
  match findDir store backup_name with
  | none => (fs, false)
  | some dir =>
    match readMeta dir with
    | none => (fs, false)
    | some meta =>
      let r := restoreFiles dir.files fails fs meta.files
      (r.1, decide (0 < r.2.length))

/-- Model of `BackupManager.cleanup_old_backups` (backup_manager.py lines 106-121):
when more than `max_backups` checkpoints are listed, delete (`rmtree`)
every listed checkpoint past the first `max_backups` of the newest-first
listing. -/
def cleanup_old_backups (store : Store) (max_backups : Nat) : Store :=
  let backups := list_backups store
  if max_backups < backups.length then
    (backups.drop max_backups).foldl
      (fun st b => st.filter (fun d => d.dirName != b.path)) store
  else store

/-- The process environment a permission check runs in:
whether `os.geteuid() == 0`, whether `DISPLAY`/`WAYLAND_DISPLAY` is set,
what `Confirm.ask` for the pkexec offer yields (`none` models a
`KeyboardInterrupt` during the prompt), whether the `pkexec` binary exists
(`FileNotFoundError` when absent), and the exit status pkexec would hand
back. -/
structure PrivEnv where
  isRoot : Bool
  displayAvailable : Bool
  confirmPkexec : Option Bool
  pkexecPresent : Bool
  pkexecExit : Int
deriving Repr, DecidableEq

/-- Outcome of a root-access check.  `granted`/`denied` are the `True`/
`False` returns of the Python functions; `exited code` models
`sys.exit(result.returncode)` after a successful pkexec relaunch (the
call never returns: the process is replaced). -/
inductive PrivResult where
  | granted
  | denied
  | exited (code : Int)
deriving Repr, DecidableEq

/-- Model of `ConfigManager._restart_with_pkexec` (config_manager.py lines 125-160):
when pkexec is absent, `subprocess.run` raises `FileNotFoundError`, which is
caught and the function returns `False`; otherwise the relaunch happens and
the current process exits with pkexec's return code. -/
def restart_with_pkexec (env : PrivEnv) : PrivResult :=
  if env.pkexecPresent then .exited env.pkexecExit else .denied

/-- Model of `ConfigManager.require_root_access` (config_manager.py lines 89-119):
`True` immediately under root; otherwise, when a display is available,
offer a pkexec relaunch — a `KeyboardInterrupt` during the prompt returns
`False`, a declined prompt falls through to the final `return False`, an
accepted prompt defers to `_restart_with_pkexec`. -/
def require_root_access (env : PrivEnv) (operation_name : String) : PrivResult :=
  let _ := operation_name
  if env.isRoot then .granted
  else if env.displayAvailable then
    match env.confirmPkexec with
    | none => .denied
    | some true => restart_with_pkexec env
    | some false => .denied
  else .denied

/-- The `root_required_operations` table of
`ConfigManager.check_operation_permissions` (config_manager.py
lines 168-179): category ↦ human-readable description. -/
def root_required_operations (op : String) : Option String :=
  if op = "system_cleanup" then some "system cleanup operations"
  else if op = "package_management" then some "package management operations"
  else if op = "service_management" then some "service management operations"
  else if op = "system_configuration" then some "system configuration changes"
  else if op = "security_hardening" then some "security hardening operations"
  else if op = "network_optimization" then some "network configuration changes"
  else if op = "performance_tweaks" then some "performance optimization"
  else if op = "boot_optimization" then some "boot configuration changes"
  else if op = "firewall_configuration" then some "firewall configuration"
  else if op = "ssh_hardening" then some "SSH configuration changes"
  else none

/-- The `user_operations` table of `check_operation_permissions`
(config_manager.py lines 182-188). -/
def user_operations (op : String) : Option String :=
  if op = "appearance_tweaks" then some "appearance customization"
  else if op = "user_backup" then some "user data backup"
  else if op = "system_information" then some "system information display"
  else if op = "plugin_management" then some "plugin management"
  else if op = "configuration_view" then some "configuration viewing"
  else none

/-- Model of `ConfigManager.check_operation_permissions` (config_manager.py
lines 162-197): root-required categories defer to `require_root_access`,
user categories return `True`, and an unknown category defers to
`require_root_access` as well ("assume root required for safety"). -/
def check_operation_permissions (env : PrivEnv) (op : String) : PrivResult :=
  match root_required_operations op with
  | some desc => require_root_access env desc
  | none =>
    match user_operations op with
    | some _ => .granted
    | none => require_root_access env ("operation: " ++ op)

/-- Model of `CLIInterface.check_and_handle_root_requirement` (cli_interface.py
lines 68-75): returns `False` when `check_operation_permissions` does, and
`True` otherwise; a pkexec relaunch never returns. -/
def check_and_handle_root_requirement (env : PrivEnv) (op : String) : PrivResult :=
  check_operation_permissions env op

/-- Terminal outcome of one gated menu dispatch. -/
inductive GateOutcome where
  | proceeded
  | denied
  | exited (code : Int)
deriving Repr, DecidableEq

/-- Result of one gated dispatch: the outcome, the caller-visible state,
and whether the operation's effect ran. -/
structure GateRun (σ : Type) where
  outcome : GateOutcome
  state : σ
  effectInvoked : Bool
deriving Repr

/-- The menu-level gating pattern of `cli_interface.py` (e.g. lines
148-152): `if self.check_and_handle_root_requirement(name, category):
handler()` — the handler (the operation's effect, an arbitrary state
transformer) runs exactly when the check grants permission. -/
def gate_execute {σ : Type} (env : PrivEnv) (op : String)
    (effect : σ → σ) (s : σ) : GateRun σ :=
  match check_and_handle_root_requirement env op with
  | .granted => ⟨.proceeded, effect s, true⟩
  | .denied => ⟨.denied, s, false⟩
  | .exited c => ⟨.exited c, s, false⟩

/-- Environment of `AdvancedTweaksEngine.execute_command`: the configured
`safe_mode` flag (`config.getboolean('general', 'safe_mode',
fallback=False)`), whether creating the checkpoint directory raises
(`mkdir` in `BackupManager.__init__` / `create_backup`), and the external
command's exit status (`none` models `subprocess.TimeoutExpired`). -/
structure EngineEnv where
  safeModeCfg : Bool
  ckptDirFails : Bool
  commandExit : Option Int
deriving Repr, DecidableEq

/-- What became of the pre-operation checkpoint inside one
`execute_command` call. -/
inductive CkptAttempt where
  | notAttempted
  | failedLogged
  | created (backupName : String)
deriving Repr, DecidableEq

/-- The critical files snapshotted by `create_system_checkpoint`
(advanced_tweaks_engine.py lines 80-85). -/
def criticalFiles : List FsPath :=
  [["etc", "fstab"], ["etc", "sysctl.conf"],
   ["etc", "systemd", "system.conf"], ["etc", "default", "grub"]]

/-- Model of `AdvancedTweaksEngine.create_system_checkpoint`
(advanced_tweaks_engine.py lines 74-91): builds a `BackupManager` and calls
`create_backup` on the critical files; *every* exception — including a
failure to create the checkpoint directory itself — is caught by its
`except` clause and merely logged ("Failed to create checkpoint"), so the
caller always gets control back normally. -/
def create_system_checkpoint (env : EngineEnv) (store : Store) (fs : FS)
    (operation timestamp : String) (now : Nat) : Store × CkptAttempt :=
  if env.ckptDirFails then (store, .failedLogged)
  else
    let r := create_backup store fs ("pre_" ++ operation) timestamp now
      criticalFiles (fun _ => false)
    (r.1, .created r.2)

/-- Caller-visible outcome of one `execute_command` call: the checkpoint
attempt, whether the external command was run, and the returned boolean. -/
structure ExecOutcome where
  checkpoint : CkptAttempt
  commandRan : Bool
  result : Bool
deriving Repr, DecidableEq

/-- Model of `AdvancedTweaksEngine.execute_command` (advanced_tweaks_engine.py
lines 30-72): when `safe_mode` and the configured flag are both set, first
attempt `create_system_checkpoint` (whose failures are swallowed there),
then unconditionally run the external command with `subprocess.run` and
return `True` exactly when its exit status is 0 (timeouts return
`False`). -/
def execute_command (env : EngineEnv) (store : Store) (fs : FS)
    (description timestamp : String) (now : Nat) (safe_mode : Bool) :
    Store × ExecOutcome :=
  let r := if safe_mode && env.safeModeCfg then
             create_system_checkpoint env store fs description timestamp now
           else (store, .notAttempted)
  (r.1, { checkpoint := r.2, commandRan := true,
          result := env.commandExit == some 0 })

/-! ### Helper lemmas about the copy loop -/

theorem lookup_cons_ne {α β : Type} [BEq α] [LawfulBEq α] {k k' : α} {c : β}
    {d : List (α × β)} (h : k ≠ k') :
    ((k', c) :: d).lookup k = d.lookup k := by
  simp [List.lookup_cons, beq_eq_false_iff_ne.mpr h]

/-- The list `backed_up_files` is exactly the declared list filtered to the paths
that existed and whose copy did not raise. -/
theorem copyFiles_snd (fs : FS) (fails : FsPath → Bool) :
    ∀ (ps : List FsPath) (d : List (String × FileContent)),
      (copyFiles fs fails d ps).2
        = ps.filter (fun p => (fs.lookup p).isSome && !fails p) := by
  intro ps
  induction ps with
  | nil => intro d; rfl
  | cons p rest ih =>
    intro d
    cases h : fs.lookup p with
    | none => simp [copyFiles, h, List.filter_cons, ih d]
    | some c =>
      by_cases hf : fails p
      · simp [copyFiles, h, hf, List.filter_cons, ih d]
      · simp [copyFiles, h, hf, List.filter_cons, ih ((basename p, c) :: d)]

/-- A basename the copy loop never wrote still resolves as it did in the
directory the loop started from. -/
theorem copyFiles_lookup_not_written (fs : FS) (fails : FsPath → Bool) :
    ∀ (ps : List FsPath) (d : List (String × FileContent)) (b : String),
      b ∉ ((copyFiles fs fails d ps).2.map basename) →
      (copyFiles fs fails d ps).1.lookup b = d.lookup b := by
  intro ps
  induction ps with
  | nil => intro d b _; rfl
  | cons p rest ih =>
    intro d b hb
    cases h : fs.lookup p with
    | none =>
      simp only [copyFiles, h] at hb ⊢
      exact ih d b hb
    | some c =>
      by_cases hf : fails p
      · simp only [copyFiles, h, hf, if_pos] at hb ⊢
        exact ih d b hb
      · simp only [copyFiles, h, hf, if_neg, Bool.false_eq_true,
          not_false_eq_true, List.map_cons, List.mem_cons] at hb ⊢
        push_neg at hb
        rw [ih ((basename p, c) :: d) b hb.2]
        exact lookup_cons_ne hb.1

/-- When the backed-up basenames are pairwise distinct, the archived copy
of each backed-up path holds that path's filesystem content. -/
theorem copyFiles_lookup_written (fs : FS) (fails : FsPath → Bool) :
    ∀ (ps : List FsPath) (d : List (String × FileContent)) (p : FsPath) (c : FileContent),
      p ∈ (copyFiles fs fails d ps).2 →
      ((copyFiles fs fails d ps).2.map basename).Nodup →
      fs.lookup p = some c →
      (copyFiles fs fails d ps).1.lookup (basename p) = some c := by
  intro ps
  induction ps with
  | nil => intro d p c hp _ _; simp [copyFiles] at hp
  | cons p0 rest ih =>
    intro d p c hp hnd hc
    cases h : fs.lookup p0 with
    | none =>
      simp only [copyFiles, h] at hp hnd ⊢
      exact ih d p c hp hnd hc
    | some c0 =>
      by_cases hf : fails p0
      · simp only [copyFiles, h, hf, if_pos] at hp hnd ⊢
        exact ih d p c hp hnd hc
      · simp only [copyFiles, h, hf, if_neg, Bool.false_eq_true,
          not_false_eq_true, List.map_cons, List.nodup_cons,
          List.mem_cons] at hp hnd ⊢
        rcases hp with hp | hp
        · subst hp
          rw [hc] at h
          cases h
          rw [copyFiles_lookup_not_written fs fails rest ((basename p, c) :: d)
            (basename p) hnd.1]
          exact List.lookup_cons_self
        · exact ih ((basename p0, c0) :: d) p c hp hnd.2 hc

/-! ### The shape of a freshly created checkpoint -/

/-- Replacing every directory named `bn` by `newDir` (itself named `bn`)
makes `find?` return `newDir`, provided some directory named `bn` was
there. -/
theorem find?_map_replace (bn : String) (newDir : CkptDir)
    (hnew : newDir.dirName = bn) :
    ∀ store : Store,
      (∃ d ∈ store, d.dirName = bn) →
      (store.map (fun d => if d.dirName == bn then newDir else d)).find?
        (fun d => d.dirName == bn) = some newDir := by
  intro store
  induction store with
  | nil => intro h; simp at h
  | cons d0 rest ih =>
    intro h
    by_cases h0 : (d0.dirName == bn) = true
    · rw [List.map_cons, if_pos h0]
      exact List.find?_cons_of_pos _ (by simp [hnew])
    · rw [List.map_cons, if_neg h0]
      have hrest : ∃ d ∈ rest, d.dirName = bn := by
        rcases h with ⟨d, hd, hdbn⟩
        rcases List.mem_cons.mp hd with h1 | h1
        · exact absurd (by simp [h1 ▸ hdbn]) h0
        · exact ⟨d, h1, hdbn⟩
      calc (d0 :: (rest.map (fun d => if d.dirName == bn then newDir else d))).find?
            (fun d => d.dirName == bn)
          = (rest.map (fun d => if d.dirName == bn then newDir else d)).find?
            (fun d => d.dirName == bn) := List.find?_cons_of_neg _ h0
        _ = some newDir := ih hrest

/-- The directory contents recorded for `create_backup` on store `store`. -/
def createdFiles (store : Store) (fs : FS) (name timestamp : String)
    (ps : List FsPath) (fails : FsPath → Bool) :
    List (String × FileContent) :=
  (copyFiles fs fails
    (match findDir store (name ++ "_" ++ timestamp) with
     | some dir => dir.files
     | none => []) ps).1

/-- After `create_backup`, looking the returned backup name up in the
returned store finds the new checkpoint directory: the metadata record —
whose `files` field lists exactly the successfully backed-up paths —
stored under `metadata.json` on top of the copied files. -/
theorem create_backup_spec (store : Store) (fs : FS) (name timestamp : String)
    (now : Nat) (ps : List FsPath) (fails : FsPath → Bool) :
    (create_backup store fs name timestamp now ps fails).2
        = name ++ "_" ++ timestamp
    ∧ findDir (create_backup store fs name timestamp now ps fails).1
        (name ++ "_" ++ timestamp)
      = some { dirName := name ++ "_" ++ timestamp
             , files := ("metadata.json", FileContent.record
                 { name := name, timestamp := timestamp
                 , files := ps.filter (fun p => (fs.lookup p).isSome && !fails p)
                 , created_at := now })
                 :: createdFiles store fs name timestamp ps fails } := by
  refine ⟨rfl, ?_⟩
  unfold create_backup createdFiles
  cases hfind : findDir store (name ++ "_" ++ timestamp) with
  | none =>
    simp only [hfind]
    rw [← copyFiles_snd fs fails ps []]
    unfold findDir at hfind ⊢
    rw [List.find?_append, hfind]
    simp
  | some dir =>
    simp only [hfind]
    rw [← copyFiles_snd fs fails ps dir.files]
    unfold findDir at hfind ⊢
    exact find?_map_replace (name ++ "_" ++ timestamp) _ rfl store
      ⟨dir, List.mem_of_find?_eq_some hfind,
        by simpa using List.find?_some hfind⟩

/-! ### Helper lemmas about the restore loop -/

/-- The list `restored_files` is exactly the recorded list filtered to the paths
whose copy is present in the checkpoint directory and whose copy-back did
not raise. -/
theorem restoreFiles_snd (dfiles : List (String × FileContent))
    (fails : FsPath → Bool) :
    ∀ (ps : List FsPath) (fs : FS),
      (restoreFiles dfiles fails fs ps).2
        = ps.filter (fun p => (dfiles.lookup (basename p)).isSome && !fails p) := by
  intro ps
  induction ps with
  | nil => intro fs; rfl
  | cons p rest ih =>
    intro fs
    cases h : dfiles.lookup (basename p) with
    | none => simp [restoreFiles, h, List.filter_cons, ih fs]
    | some c =>
      by_cases hf : fails p
      · simp [restoreFiles, h, hf, List.filter_cons, ih fs]
      · simp [restoreFiles, h, hf, List.filter_cons, ih ((p, c) :: fs)]

/-- A path not among the recorded files keeps its filesystem content
through the restore loop. -/
theorem restoreFiles_lookup_not_mem (dfiles : List (String × FileContent))
    (fails : FsPath → Bool) :
    ∀ (ps : List FsPath) (fs : FS) (q : FsPath), q ∉ ps →
      (restoreFiles dfiles fails fs ps).1.lookup q = fs.lookup q := by
  intro ps
  induction ps with
  | nil => intro fs q _; rfl
  | cons p rest ih =>
    intro fs q hq
    rw [List.mem_cons] at hq
    push_neg at hq
    cases h : dfiles.lookup (basename p) with
    | none => simpa [restoreFiles, h] using ih fs q hq.2
    | some c =>
      by_cases hf : fails p
      · simpa [restoreFiles, h, hf] using ih fs q hq.2
      · simp only [restoreFiles, h, hf, Bool.false_eq_true, if_neg,
          not_false_eq_true]
        rw [ih ((p, c) :: fs) q hq.2]
        exact lookup_cons_ne hq.1

/-- A recorded path whose copy is present and whose copy-back does not
raise ends up holding the archived content — independently of failures on
any of the other recorded files. -/
theorem restoreFiles_lookup_mem (dfiles : List (String × FileContent))
    (fails : FsPath → Bool) :
    ∀ (ps : List FsPath) (fs : FS) (p : FsPath) (c : FileContent), p ∈ ps →
      dfiles.lookup (basename p) = some c → fails p = false →
      (restoreFiles dfiles fails fs ps).1.lookup p = some c := by
  intro ps
  induction ps with
  | nil => intro fs p c hp _ _; simp at hp
  | cons p0 rest ih =>
    intro fs p c hp hc hf
    by_cases hmem : p ∈ rest
    · cases h : dfiles.lookup (basename p0) with
      | none => simpa [restoreFiles, h] using ih fs p c hmem hc hf
      | some c0 =>
        by_cases hf0 : fails p0
        · simpa [restoreFiles, h, hf0] using ih fs p c hmem hc hf
        · simpa [restoreFiles, h, hf0] using
            ih ((p0, c0) :: fs) p c hmem hc hf
    · have hp0 : p = p0 := by
        rcases List.mem_cons.mp hp with h1 | h1
        · exact h1
        · exact absurd h1 hmem
      subst hp0
      simp only [restoreFiles, hc, hf, Bool.false_eq_true, if_neg,
        not_false_eq_true]
      rw [restoreFiles_lookup_not_mem dfiles fails rest ((p, c) :: fs) p hmem]
      exact List.lookup_cons_self

/-! ### Helper lemmas about the newest-first sort -/

theorem insertByCreatedDesc_perm (x : BackupEntry) :
    ∀ l : List BackupEntry, (insertByCreatedDesc x l).Perm (x :: l) := by
  intro l
  induction l with
  | nil => exact List.Perm.refl _
  | cons y ys ih =>
    by_cases h : x.metadata.created_at < y.metadata.created_at
    · rw [insertByCreatedDesc, if_pos h]
      exact ((ih.cons y).trans (List.Perm.swap x y ys)).symm.symm
    · rw [insertByCreatedDesc, if_neg h]

theorem sortByCreatedDesc_perm :
    ∀ l : List BackupEntry, (sortByCreatedDesc l).Perm l := by
  intro l
  induction l with
  | nil => exact List.Perm.refl _
  | cons x xs ih =>
    exact (insertByCreatedDesc_perm x (sortByCreatedDesc xs)).trans (ih.cons x)

/-- Inserting an entry strictly older than everything present appends it
at the end. -/
theorem insertByCreatedDesc_of_lt (x : BackupEntry) :
    ∀ l : List BackupEntry,
      (∀ y ∈ l, x.metadata.created_at < y.metadata.created_at) →
      insertByCreatedDesc x l = l ++ [x] := by
  intro l
  induction l with
  | nil => intro _; rfl
  | cons y ys ih =>
    intro h
    rw [insertByCreatedDesc, if_pos (h y (List.mem_cons_self y ys)),
      ih (fun z hz => h z (List.mem_cons_of_mem y hz))]
    rfl

/-- On a list whose `created_at` keys are strictly increasing the
newest-first sort is exactly list reversal. -/
theorem sortByCreatedDesc_of_increasing :
    ∀ l : List BackupEntry,
      l.Pairwise (fun a b => a.metadata.created_at < b.metadata.created_at) →
      sortByCreatedDesc l = l.reverse := by
  intro l
  induction l with
  | nil => intro _; rfl
  | cons x xs ih =>
    intro h
    rw [List.pairwise_cons] at h
    rw [sortByCreatedDesc, ih h.2,
      insertByCreatedDesc_of_lt x xs.reverse
        (fun y hy => h.1 y (List.mem_reverse.mp hy)),
      List.reverse_cons]

/-! ### Sequences of checkpoint creations -/

/-- The arguments of one `create_backup` call: the checkpoint name, the
second-resolution `strftime` timestamp used in the directory name, the
`created_at` time, and the declared paths. -/
structure CreateCall where
  name : String
  timestamp : String
  created_at : Nat
  files : List FsPath
deriving Repr, DecidableEq

/-- The directory name `f"{name}_{timestamp}"` a call produces. -/
def dirNameOf (c : CreateCall) : String := c.name ++ "_" ++ c.timestamp

/-- Run a sequence of `create_backup` calls against a fixed filesystem,
with no copy failures. -/
def createMany (fs : FS) (store : Store) : List CreateCall → Store
  | [] => store
  | c :: cs =>
      createMany fs
        (create_backup store fs c.name c.timestamp c.created_at c.files
          (fun _ => false)).1 cs

/-- The checkpoint directory one fresh `create_backup` call produces. -/
def mkDir (fs : FS) (c : CreateCall) : CkptDir :=
  { dirName := dirNameOf c
  , files := ("metadata.json", FileContent.record
      { name := c.name, timestamp := c.timestamp
      , files := (copyFiles fs (fun _ => false) [] c.files).2
      , created_at := c.created_at })
      :: (copyFiles fs (fun _ => false) [] c.files).1 }

/-- The `list_backups` entry of a fresh checkpoint. -/
def mkEntry (fs : FS) (c : CreateCall) : BackupEntry :=
  { path := dirNameOf c
  , metadata :=
      { name := c.name, timestamp := c.timestamp
      , files := (copyFiles fs (fun _ => false) [] c.files).2
      , created_at := c.created_at } }

/-- A fresh directory name makes `create_backup` append a new checkpoint
directory. -/
theorem create_backup_fresh (store : Store) (fs : FS) (c : CreateCall)
    (h : findDir store (dirNameOf c) = none) :
    (create_backup store fs c.name c.timestamp c.created_at c.files
        (fun _ => false)).1
      = store ++ [mkDir fs c] := by
  unfold create_backup mkDir dirNameOf
  unfold dirNameOf at h
  simp only [h]

theorem findDir_append_none (s t : Store) (n : String)
    (hs : findDir s n = none) : findDir (s ++ t) n = findDir t n := by
  unfold findDir at hs ⊢
  rw [List.find?_append, hs, Option.none_or]

/-- A sequence of creations with pairwise-distinct, fresh directory names
appends one directory per call, in call order. -/
theorem createMany_append (fs : FS) :
    ∀ (calls : List CreateCall) (store : Store),
      (∀ c ∈ calls, findDir store (dirNameOf c) = none) →
      (calls.map dirNameOf).Nodup →
      createMany fs store calls = store ++ calls.map (mkDir fs) := by
  intro calls
  induction calls with
  | nil => intro store _ _; simp [createMany]
  | cons c cs ih =>
    intro store hfresh hnd
    rw [List.map_cons, List.nodup_cons] at hnd
    rw [createMany, create_backup_fresh store fs c
        (hfresh c (List.mem_cons_self c cs)),
      ih (store ++ [mkDir fs c]) ?_ hnd.2, List.map_cons]
    · simp
    · intro c' hc'
      rw [findDir_append_none store [mkDir fs c] (dirNameOf c')
        (hfresh c' (List.mem_cons_of_mem c hc'))]
      have hne : dirNameOf c' ≠ dirNameOf c := by
        intro heq
        exact hnd.1 (heq ▸ List.mem_map_of_mem dirNameOf hc')
      unfold findDir
      rw [List.find?_cons_of_neg]
      · rfl
      · show ¬((mkDir fs c).dirName == dirNameOf c') = true
        simp only [mkDir, beq_iff_eq]
        exact fun h => hne h.symm

/-! ### Helper lemmas about pruning -/

/-- The entries produced by a creation sequence from an empty store, in
call order. -/
theorem list_backups_createMany (fs : FS) (calls : List CreateCall)
    (hnd : (calls.map dirNameOf).Nodup)
    (hmono : calls.Pairwise (fun a b => a.created_at < b.created_at)) :
    list_backups (createMany fs [] calls) = (calls.map (mkEntry fs)).reverse := by
  rw [createMany_append fs calls [] (fun c _ => rfl) hnd, List.nil_append]
  unfold list_backups
  have h1 : ∀ cs : List CreateCall, (cs.map (mkDir fs)).filterMap
      (fun d => (readMeta d).map (fun m => (⟨d.dirName, m⟩ : BackupEntry)))
      = cs.map (mkEntry fs) := by
    intro cs
    induction cs with
    | nil => rfl
    | cons c rest ih =>
      have hr : Option.map (fun m => (⟨(mkDir fs c).dirName, m⟩ : BackupEntry))
          (readMeta (mkDir fs c)) = some (mkEntry fs c) := by
        simp [readMeta, mkDir, mkEntry, dirNameOf]
      rw [List.map_cons, List.filterMap_cons, hr]
      dsimp only
      rw [ih, List.map_cons]
  rw [h1 calls]
  exact sortByCreatedDesc_of_increasing _ (List.pairwise_map.mpr hmono)

/-- Deleting the listed checkpoints one by one is the same as filtering
away everything whose directory name occurs among them. -/
theorem cleanupFold_eq_filter :
    ∀ (toDel : List BackupEntry) (store : Store),
      toDel.foldl (fun st b => st.filter (fun d => d.dirName != b.path)) store
        = store.filter (fun d => toDel.all (fun b => d.dirName != b.path)) := by
  intro toDel
  induction toDel with
  | nil => intro store; simp
  | cons b bs ih =>
    intro store
    rw [List.foldl_cons, ih, List.filter_filter]
    apply List.filter_congr
    intro d _
    rw [List.all_cons, Bool.and_comm]

/-- Filtering a store with pairwise-distinct directory names against the
names of its first `m` directories leaves exactly the rest. -/
theorem filter_not_take_names (names : List String) :
    ∀ (l : Store) (m : Nat),
      (l.map (fun d => d.dirName)).Nodup →
      (∀ x ∈ l, (x.dirName ∈ names ↔
        x.dirName ∈ (l.take m).map (fun d => d.dirName))) →
      l.filter (fun d => names.all (fun n => d.dirName != n)) = l.drop m := by
  intro l
  induction l with
  | nil => intro m _ _; simp
  | cons d ds ih =>
    intro m hnd hmem
    rw [List.map_cons, List.nodup_cons] at hnd
    cases m with
    | zero =>
      rw [List.drop_zero]
      rw [List.filter_eq_self]
      intro x hx
      have hnot : x.dirName ∉ names := by
        rw [hmem x hx]
        simp
      rw [List.all_eq_true]
      intro n hn
      simp only [bne_iff_ne, ne_eq]
      exact fun h => hnot (h ▸ hn)
    | succ m =>
      have hd : d.dirName ∈ names := by
        rw [hmem d (List.mem_cons_self d ds)]
        simp [List.take_succ_cons]
      rw [List.filter_cons, if_neg ?_, List.drop_succ_cons]
      · apply ih m hnd.2
        intro x hx
        have hne : x.dirName ≠ d.dirName := by
          intro h
          exact hnd.1 (h ▸ List.mem_map_of_mem (fun d => d.dirName) hx)
        rw [hmem x (List.mem_cons_of_mem d hx)]
        simp only [List.take_succ_cons, List.map_cons, List.mem_cons]
        exact ⟨fun h => h.elim (fun h1 => absurd h1 hne) id, Or.inr⟩
      · rw [List.all_eq_false.mpr ⟨d.dirName, hd, by simp⟩]
        simp

/-- The scan in `list_backups` keeps one entry per directory with readable metadata. -/
theorem length_filterMap_entries :
    ∀ store : Store,
      (store.filterMap
        (fun d => (readMeta d).map (fun m => (⟨d.dirName, m⟩ : BackupEntry)))).length
        = (store.filter (fun d => (readMeta d).isSome)).length := by
  intro store
  induction store with
  | nil => rfl
  | cons d ds ih =>
    cases h : readMeta d with
    | none => simpa [List.filterMap_cons, List.filter_cons, h] using ih
    | some m => simpa [List.filterMap_cons, List.filter_cons, h] using ih

/-! ## Claims -/

/-- C1 (counterexample): with safe mode configured on, the checkpoint
directory uncreatable, and the external command exiting 0, `execute_command`
still runs the command and returns `True` — the claim that the `execute()`
call fails and the command does not run is false on the code, which
catches the checkpoint failure and merely logs it
(advanced_tweaks_engine.py lines 90-91). -/
theorem C1_counterexample :
    (execute_command ⟨true, true, some 0⟩ [] [] "op" "t" 0 true).2
      = ⟨.failedLogged, true, true⟩ := by decide

/-- C1 (amended): when the checkpoint directory cannot be created during
the pre-operation snapshot, the failure is caught and logged, the store is
left unchanged, and `execute_command` still runs the external command,
returning the command's own outcome. -/
theorem C1_amended (env : EngineEnv) (store : Store) (fs : FS)
    (description timestamp : String) (now : Nat) (safe_mode : Bool)
    (hfail : env.ckptDirFails = true) :
    (execute_command env store fs description timestamp now safe_mode).2.commandRan
        = true
    ∧ (execute_command env store fs description timestamp now safe_mode).2.result
        = (env.commandExit == some 0)
    ∧ (execute_command env store fs description timestamp now safe_mode).1 = store
    ∧ (safe_mode = true → env.safeModeCfg = true →
        (execute_command env store fs description timestamp now safe_mode).2.checkpoint
          = .failedLogged) := by
  unfold execute_command create_system_checkpoint
  cases hsm : safe_mode && env.safeModeCfg <;> simp [hfail, hsm]
  intro h1
  rw [h1] at hsm
  simpa using hsm

/-- C1 (witness for the amended theorem). -/
theorem C1_witness :
    (execute_command ⟨true, true, some 7⟩ [] [] "op" "t" 0 true).2.commandRan
        = true
    ∧ (execute_command ⟨true, true, some 7⟩ [] [] "op" "t" 0 true).2.result
        = ((some 7 : Option Int) == some 0)
    ∧ (execute_command ⟨true, true, some 7⟩ [] [] "op" "t" 0 true).1 = []
    ∧ (true = true → true = true →
        (execute_command ⟨true, true, some 7⟩ [] [] "op" "t" 0 true).2.checkpoint
          = .failedLogged) :=
  C1_amended ⟨true, true, some 7⟩ [] [] "op" "t" 0 true rfl

/-- C2 (confirmed): with the current level `User` and escalation
unavailable, interrupted, declined, or failing (pkexec absent), the gated
dispatch of a `system_cleanup` operation ends `Denied`, leaves the state
untouched and never invokes the operation's effect. -/
theorem C2_denied_no_effect {σ : Type} (env : PrivEnv) (effect : σ → σ)
    (s : σ) (hroot : env.isRoot = false)
    (hesc : env.displayAvailable = false ∨ env.confirmPkexec = none
      ∨ env.confirmPkexec = some false
      ∨ (env.confirmPkexec = some true ∧ env.pkexecPresent = false)) :
    gate_execute env "system_cleanup" effect s = ⟨.denied, s, false⟩ := by
  unfold gate_execute check_and_handle_root_requirement
    check_operation_permissions root_required_operations
  simp only [if_pos rfl]
  unfold require_root_access restart_with_pkexec
  rcases hesc with h | h | h | ⟨h1, h2⟩
  · simp [hroot, h]
  · cases hd : env.displayAvailable <;> simp [hroot, h, hd]
  · cases hd : env.displayAvailable <;> simp [hroot, h, hd]
  · cases hd : env.displayAvailable <;> simp [hroot, h1, h2, hd]

/-- C2 (witness). -/
theorem C2_witness :
    gate_execute ⟨false, false, none, false, 0⟩ "system_cleanup" Nat.succ 5
      = ⟨.denied, 5, false⟩ :=
  C2_denied_no_effect ⟨false, false, none, false, 0⟩ Nat.succ 5 rfl
    (Or.inl rfl)

/-- C3 (counterexample): for the category `"made_up_category"`, present in
neither table, the permission check returns `granted` when running as
root — so `is_allowed` is not false for unknown categories regardless of
privilege level (config_manager.py line 197 defers to
`require_root_access`, which returns `True` under root). -/
theorem C3_counterexample :
    check_operation_permissions ⟨true, false, none, false, 0⟩
      "made_up_category" = .granted := by decide

/-- C3 (amended): a category present in neither table is treated as
root-required: the permission check defers to `require_root_access`, hence
returns `granted` when the current level is `Root`. -/
theorem C3_amended (env : PrivEnv) (op : String)
    (h1 : root_required_operations op = none)
    (h2 : user_operations op = none) :
    check_operation_permissions env op
        = require_root_access env ("operation: " ++ op)
    ∧ (env.isRoot = true → check_operation_permissions env op = .granted) := by
  constructor
  · unfold check_operation_permissions
    rw [h1, h2]
  · intro hroot
    unfold check_operation_permissions require_root_access
    rw [h1, h2]
    simp [hroot]

/-- C3 (witness for the amended theorem). -/
theorem C3_witness :
    check_operation_permissions ⟨true, false, none, false, 0⟩ "frobnicate"
        = require_root_access ⟨true, false, none, false, 0⟩
            ("operation: " ++ "frobnicate")
    ∧ (true = true → check_operation_permissions ⟨true, false, none, false, 0⟩
        "frobnicate" = .granted) :=
  C3_amended ⟨true, false, none, false, 0⟩ "frobnicate" (by decide) (by decide)

/-- C4 (confirmed): `require_root_access` yields `denied` — an ordinary
`False` return, not a process exit — both when the escalation helper is
absent (pkexec missing: `FileNotFoundError` is caught) and when the user
declines the escalation prompt. -/
theorem C4_escalation_failure_denied (env : PrivEnv) (operation_name : String)
    (hroot : env.isRoot = false)
    (hcase : (env.displayAvailable = true ∧ env.confirmPkexec = some true
        ∧ env.pkexecPresent = false)
      ∨ env.confirmPkexec = some false) :
    require_root_access env operation_name = .denied := by
  unfold require_root_access restart_with_pkexec
  rcases hcase with ⟨h1, h2, h3⟩ | h
  · simp [hroot, h1, h2, h3]
  · cases hd : env.displayAvailable <;> simp [hroot, h, hd]

/-- C4 (witness): both failure cases at concrete environments. -/
theorem C4_witness :
    require_root_access ⟨false, true, some true, false, 0⟩ "x" = .denied
    ∧ require_root_access ⟨false, true, some false, true, 0⟩ "x" = .denied :=
  ⟨C4_escalation_failure_denied ⟨false, true, some true, false, 0⟩ "x" rfl
      (Or.inl ⟨rfl, rfl, rfl⟩),
    C4_escalation_failure_denied ⟨false, true, some false, true, 0⟩ "x" rfl
      (Or.inr rfl)⟩

/-- C8 (counterexample): creating a checkpoint whose only declared path
does not exist writes a metadata record whose `files` field is empty — the
skipped path `["missing"]` is not recorded there, so `files` is not "the
list of all original paths attempted" (backup_manager.py line 34 appends
only successfully copied paths). -/
theorem C8_counterexample :
    ((create_backup [] [] "n" "t" 0 [["missing"]] (fun _ => false)).1.filterMap
      readMeta).map (fun m => m.files) = [[]] := by decide

/-- C8 (amended): the metadata record written beside the copies lists in
`files` exactly the successfully backed-up paths — the declared list
filtered to paths that existed and whose copy raised no error; skipped and
failed paths are only logged, not recorded. -/
theorem C8_amended (store : Store) (fs : FS) (name timestamp : String)
    (now : Nat) (ps : List FsPath) (fails : FsPath → Bool) :
    ∃ d, findDir (create_backup store fs name timestamp now ps fails).1
        (create_backup store fs name timestamp now ps fails).2 = some d
      ∧ readMeta d = some
          { name := name, timestamp := timestamp
          , files := ps.filter (fun p => (fs.lookup p).isSome && !fails p)
          , created_at := now } := by
  have h := create_backup_spec store fs name timestamp now ps fails
  exact ⟨_, h.1 ▸ h.2, by simp [readMeta]⟩

/-- C9 (counterexample): a store holding one checkpoint directory without
a metadata record yields an empty `list_backups` — the directory is
silently omitted rather than reported with a "no metadata" marker
(backup_manager.py line 59 skips directories whose `metadata.json` does
not exist). -/
theorem C9_counterexample :
    list_backups [⟨"x", []⟩] = [] := by decide

/-- C9 (amended): `list_backups` reports exactly the directories that have
a readable metadata record — one entry per such directory, built from its
name and metadata — and silently omits every directory lacking one. -/
theorem C9_amended (store : Store) :
    (list_backups store).length
        = (store.filter (fun d => (readMeta d).isSome)).length
    ∧ ∀ e ∈ list_backups store,
        ∃ d ∈ store, d.dirName = e.path ∧ readMeta d = some e.metadata := by
  constructor
  · unfold list_backups
    rw [(sortByCreatedDesc_perm _).length_eq]
    exact length_filterMap_entries store
  · intro e he
    unfold list_backups at he
    rw [(sortByCreatedDesc_perm _).mem_iff, List.mem_filterMap] at he
    rcases he with ⟨d, hd, hde⟩
    cases hm : readMeta d with
    | none => rw [hm] at hde; simp at hde
    | some m =>
      rw [hm, Option.map_some'] at hde
      have heq : (⟨d.dirName, m⟩ : BackupEntry) = e := Option.some.inj hde
      exact ⟨d, hd, by rw [← heq], by rw [hm, ← heq]⟩

/-- Reading back a directory whose newest `metadata.json` write is the
record parses that record. -/
theorem readMeta_record_cons (bn : String) (m : Metadata)
    (rest : List (String × FileContent)) :
    readMeta ⟨bn, ("metadata.json", FileContent.record m) :: rest⟩ = some m := by
  simp [readMeta]

/-- On a checkpoint directory that exists and has a parseable metadata
record, `restore_backup` is the restore loop over the directory's files. -/
theorem restore_backup_found (store : Store) (fs : FS) (bn : String)
    (fails : FsPath → Bool) (dir : CkptDir) (meta : Metadata)
    (hdir : findDir store bn = some dir) (hmeta : readMeta dir = some meta) :
    restore_backup store fs bn fails
      = ((restoreFiles dir.files fails fs meta.files).1,
         decide (0 < (restoreFiles dir.files fails fs meta.files).2.length)) := by
  unfold restore_backup
  rw [hdir]
  dsimp only
  rw [hmeta]

/-- C5 (counterexample): the claim fails in two ways.  First, the declared
paths `a/f` and `b/f` share the final name component `f`, so the second
copy overwrites the first inside the checkpoint directory
(backup_manager.py line 32 keys copies by `Path(file_path).name`) and the
restore leaves `a/f` holding `b/f`'s bytes.  Second, a backed-up path with
final component `metadata.json` has its archived copy clobbered by the
metadata record written at `backup_path / 'metadata.json'`
(backup_manager.py line 47), and the restore copies the record's bytes
over the original. -/
theorem C5_counterexample :
    ((restore_backup
        (create_backup []
          [(["a", "f"], .bytes 1), (["b", "f"], .bytes 2)] "n" "t" 7
          [["a", "f"], ["b", "f"]] (fun _ => false)).1
        [(["a", "f"], .bytes 1), (["b", "f"], .bytes 2)]
        (create_backup []
          [(["a", "f"], .bytes 1), (["b", "f"], .bytes 2)] "n" "t" 7
          [["a", "f"], ["b", "f"]] (fun _ => false)).2
        (fun _ => false)).1.lookup ["a", "f"] = some (.bytes 2)
      ∧ ([(["a", "f"], .bytes 1), (["b", "f"], .bytes 2)] : FS).lookup
          ["a", "f"] = some (.bytes 1))
    ∧ ((restore_backup
        (create_backup [] [(["x", "metadata.json"], .bytes 1)] "n" "t" 7
          [["x", "metadata.json"]] (fun _ => false)).1
        [(["x", "metadata.json"], .bytes 1)]
        (create_backup [] [(["x", "metadata.json"], .bytes 1)] "n" "t" 7
          [["x", "metadata.json"]] (fun _ => false)).2
        (fun _ => false)).1.lookup ["x", "metadata.json"]
        = some (.record ⟨"n", "t", [["x", "metadata.json"]], 7⟩)
      ∧ ([(["x", "metadata.json"], .bytes 1)] : FS).lookup
          ["x", "metadata.json"] = some (.bytes 1)) := by
  decide

/-- C5 (amended): provided the successfully backed-up paths have pairwise
distinct final name components, none of which is `metadata.json`,
restoring a checkpoint immediately after creating it (no intervening
filesystem changes, no restore-side copy errors) leaves every successfully
backed-up file byte-identical to its pre-backup content. -/
theorem C5_roundtrip (store : Store) (fs : FS) (name timestamp : String)
    (now : Nat) (ps : List FsPath) (fails : FsPath → Bool) (p : FsPath)
    (hnd : ((ps.filter (fun q => (fs.lookup q).isSome && !fails q)).map
      basename).Nodup)
    (hm : ∀ q ∈ ps.filter (fun q => (fs.lookup q).isSome && !fails q),
      basename q ≠ "metadata.json")
    (hp : p ∈ ps.filter (fun q => (fs.lookup q).isSome && !fails q)) :
    (restore_backup (create_backup store fs name timestamp now ps fails).1 fs
        (create_backup store fs name timestamp now ps fails).2
        (fun _ => false)).1.lookup p
      = fs.lookup p := by
  obtain ⟨hname, hfind⟩ := create_backup_spec store fs name timestamp now ps fails
  rw [hname, restore_backup_found _ fs _ _ _ _ hfind
    (readMeta_record_cons _ _ _)]
  dsimp only
  have hpf := hp
  rw [List.mem_filter] at hpf
  obtain ⟨hpl, hcond⟩ := hpf
  rw [Bool.and_eq_true] at hcond
  obtain ⟨c, hc⟩ := Option.isSome_iff_exists.mp hcond.1
  have hw0 : (createdFiles store fs name timestamp ps fails).lookup (basename p)
      = some c := by
    unfold createdFiles
    exact copyFiles_lookup_written fs fails ps _ p c
      (by rw [copyFiles_snd]; exact hp)
      (by rw [copyFiles_snd]; exact hnd) hc
  have hres := restoreFiles_lookup_mem
    (("metadata.json", FileContent.record
        { name := name, timestamp := timestamp
        , files := ps.filter (fun q => (fs.lookup q).isSome && !fails q)
        , created_at := now })
      :: createdFiles store fs name timestamp ps fails)
    (fun _ => false)
    (ps.filter (fun q => (fs.lookup q).isSome && !fails q)) fs p c hp
    (by rw [lookup_cons_ne (hm p hp)]; exact hw0) rfl
  simpa [hc] using hres

/-- C5 (witness for the amended theorem). -/
theorem C5_witness :
    (restore_backup
        (create_backup []
          [(["a", "f"], .bytes 1), (["b", "g"], .bytes 2)] "n" "t" 7
          [["a", "f"], ["b", "g"]] (fun _ => false)).1
        [(["a", "f"], .bytes 1), (["b", "g"], .bytes 2)]
        (create_backup []
          [(["a", "f"], .bytes 1), (["b", "g"], .bytes 2)] "n" "t" 7
          [["a", "f"], ["b", "g"]] (fun _ => false)).2
        (fun _ => false)).1.lookup ["a", "f"]
      = ([(["a", "f"], .bytes 1), (["b", "g"], .bytes 2)] : FS).lookup
          ["a", "f"] :=
  C5_roundtrip [] [(["a", "f"], .bytes 1), (["b", "g"], .bytes 2)] "n" "t" 7
    [["a", "f"], ["b", "g"]] (fun _ => false) ["a", "f"]
    (by decide) (by decide) (by decide)

/-- C7 (confirmed): for a stored checkpoint with readable metadata,
`restore_backup` returns `true` exactly when at least one recorded file is
restored (its copy is present and its copy-back raises no error), and every
restorable recorded file ends up holding its archived content no matter
which other files fail — failures neither halt the loop nor roll back
earlier restorations. -/
theorem C7_best_effort (store : Store) (fs : FS) (bn : String)
    (fails : FsPath → Bool) (dir : CkptDir) (meta : Metadata)
    (hdir : findDir store bn = some dir) (hmeta : readMeta dir = some meta) :
    ((restore_backup store fs bn fails).2 = true ↔
      ∃ p ∈ meta.files,
        (dir.files.lookup (basename p)).isSome = true ∧ fails p = false)
    ∧ ∀ p ∈ meta.files, ∀ c : FileContent,
        dir.files.lookup (basename p) = some c → fails p = false →
        (restore_backup store fs bn fails).1.lookup p = some c := by
  rw [restore_backup_found store fs bn fails dir meta hdir hmeta]
  constructor
  · show decide (0 < (restoreFiles dir.files fails fs meta.files).2.length)
        = true ↔ _
    rw [restoreFiles_snd, decide_eq_true_eq, List.length_pos_iff_exists_mem]
    constructor
    · rintro ⟨a, ha⟩
      rw [List.mem_filter, Bool.and_eq_true] at ha
      exact ⟨a, ha.1, ha.2.1, by simpa using ha.2.2⟩
    · rintro ⟨p, hp, h1, h2⟩
      exact ⟨p, List.mem_filter.mpr ⟨hp, by simp [h1, h2]⟩⟩
  · intro p hp c hc hf
    exact restoreFiles_lookup_mem dir.files fails meta.files fs p c hp hc hf

/-- C7 (witness): a checkpoint holding one recorded file restorable from
its archive, beside its metadata record. -/
theorem C7_witness :
    ((restore_backup
        [⟨"n_t", [("metadata.json", .record ⟨"n", "t", [["a", "f"]], 0⟩),
          ("f", .bytes 5)]⟩] [] "n_t" (fun _ => false)).2 = true ↔
      ∃ p ∈ [["a", "f"]],
        (([("metadata.json", .record ⟨"n", "t", [["a", "f"]], 0⟩),
            ("f", .bytes 5)] : List (String × FileContent)).lookup
          (basename p)).isSome = true
        ∧ (fun _ : FsPath => false) p = false)
    ∧ ∀ p ∈ [["a", "f"]], ∀ c : FileContent,
        ([("metadata.json", .record ⟨"n", "t", [["a", "f"]], 0⟩),
          ("f", .bytes 5)] : List (String × FileContent)).lookup (basename p)
          = some c →
        (fun _ : FsPath => false) p = false →
        (restore_backup
          [⟨"n_t", [("metadata.json", .record ⟨"n", "t", [["a", "f"]], 0⟩),
            ("f", .bytes 5)]⟩] [] "n_t" (fun _ => false)).1.lookup p = some c :=
  C7_best_effort
    [⟨"n_t", [("metadata.json", .record ⟨"n", "t", [["a", "f"]], 0⟩),
      ("f", .bytes 5)]⟩] [] "n_t" (fun _ => false)
    ⟨"n_t", [("metadata.json", .record ⟨"n", "t", [["a", "f"]], 0⟩),
      ("f", .bytes 5)]⟩
    ⟨"n", "t", [["a", "f"]], 0⟩ (by decide) (by decide)

/-- C10 (counterexample): two `create_backup` calls proposing the same name
within the same `strftime` second produce the same directory name, so the
second call reuses the first call's directory (`mkdir(exist_ok=True)`,
backup_manager.py line 25) and overwrites its metadata; `list_backups`
then returns 1 entry after 2 creations. -/
theorem C10_counterexample :
    (list_backups
      (createMany [] [] [⟨"n", "t", 0, []⟩, ⟨"n", "t", 1, []⟩])).length = 1 := by
  decide

/-- C10 (amended): provided the creation sequence's directory names
(`name_timestamp`) are pairwise distinct and its `created_at` times
strictly increase, `list_backups` after N creations returns exactly N
entries — the created checkpoints in reverse creation order, hence
newest-first by `created_at`. -/
theorem C10_list_after_creates (fs : FS) (calls : List CreateCall)
    (hnd : (calls.map dirNameOf).Nodup)
    (hmono : calls.Pairwise (fun a b => a.created_at < b.created_at)) :
    (list_backups (createMany fs [] calls)).length = calls.length
    ∧ list_backups (createMany fs [] calls) = (calls.map (mkEntry fs)).reverse
    ∧ (list_backups (createMany fs [] calls)).Pairwise
        (fun a b => b.metadata.created_at < a.metadata.created_at) := by
  have h := list_backups_createMany fs calls hnd hmono
  refine ⟨by rw [h]; simp, h, ?_⟩
  rw [h, List.pairwise_reverse]
  exact List.pairwise_map.mpr hmono

/-- C10 (witness for the amended theorem). -/
theorem C10_witness :
    (list_backups
        (createMany [] [] [⟨"a", "1", 0, []⟩, ⟨"b", "2", 1, []⟩])).length = 2
    ∧ list_backups (createMany [] [] [⟨"a", "1", 0, []⟩, ⟨"b", "2", 1, []⟩])
        = ([⟨"a", "1", 0, []⟩, ⟨"b", "2", 1, []⟩].map (mkEntry [])).reverse
    ∧ (list_backups
        (createMany [] [] [⟨"a", "1", 0, []⟩, ⟨"b", "2", 1, []⟩])).Pairwise
        (fun a b => b.metadata.created_at < a.metadata.created_at) :=
  C10_list_after_creates [] [⟨"a", "1", 0, []⟩, ⟨"b", "2", 1, []⟩]
    (by decide) (by decide)

/-- Checking all entries' paths is checking the mapped path list. -/
theorem all_bne_map_path (x : String) :
    ∀ l : List BackupEntry,
      (l.all fun b => x != b.path) = ((l.map fun b => b.path).all fun n => x != n) := by
  intro l
  induction l with
  | nil => rfl
  | cons b bs ih => simp [List.all_cons, ih]

/-- C6 (confirmed): after a sequence of N creations (distinct directory
names, strictly increasing creation times) with N > K,
`cleanup_old_backups K` leaves exactly the last K created checkpoints —
the K most recent — so it never deletes any of the K most recently
created ones, and exactly K remain. -/
theorem C6_prune_keeps_newest (fs : FS) (calls : List CreateCall) (K : Nat)
    (hnd : (calls.map dirNameOf).Nodup)
    (hmono : calls.Pairwise (fun a b => a.created_at < b.created_at))
    (hK : K < calls.length) :
    cleanup_old_backups (createMany fs [] calls) K
        = (createMany fs [] calls).drop (calls.length - K)
    ∧ (cleanup_old_backups (createMany fs [] calls) K).length = K
    ∧ ∀ d ∈ (createMany fs [] calls).drop (calls.length - K),
        d ∈ cleanup_old_backups (createMany fs [] calls) K := by
  have hstore : createMany fs [] calls = calls.map (mkDir fs) := by
    rw [createMany_append fs calls [] (fun c _ => rfl) hnd, List.nil_append]
  have hlist := list_backups_createMany fs calls hnd hmono
  have hmain : cleanup_old_backups (createMany fs [] calls) K
      = (createMany fs [] calls).drop (calls.length - K) := by
    unfold cleanup_old_backups
    rw [hlist, if_pos (by simpa using hK)]
    have hsplit : ((calls.map (mkEntry fs)).reverse).drop K
        = ((calls.map (mkEntry fs)).take (calls.length - K)).reverse := by
      conv_lhs =>
        rw [← List.take_append_drop (calls.length - K) (calls.map (mkEntry fs))]
      rw [List.reverse_append, List.drop_left']
      rw [List.length_reverse, List.length_drop, List.length_map,
        Nat.sub_sub_self (le_of_lt hK)]
    rw [hsplit, cleanupFold_eq_filter, hstore]
    refine Eq.trans (List.filter_congr ?_)
      (filter_not_take_names
        ((((calls.map (mkEntry fs)).take (calls.length - K)).reverse).map
          (fun b => b.path))
        (calls.map (mkDir fs)) (calls.length - K) ?_ ?_)
    · intro d _
      exact all_bne_map_path d.dirName _
    · rw [List.map_map]
      have : ((fun d => d.dirName) ∘ mkDir fs) = dirNameOf := by
        funext c; rfl
      rw [this]
      exact hnd
    · intro x _
      rw [List.map_reverse, List.mem_reverse]
      have h1 : (((calls.map (mkEntry fs)).take (calls.length - K)).map
          (fun b => b.path))
          = (calls.take (calls.length - K)).map dirNameOf := by
        rw [← List.map_take, List.map_map]
        rfl
      have h2 : (((calls.map (mkDir fs)).take (calls.length - K)).map
          (fun d => d.dirName))
          = (calls.take (calls.length - K)).map dirNameOf := by
        rw [← List.map_take, List.map_map]
        rfl
      rw [h1, h2]
  refine ⟨hmain, ?_, ?_⟩
  · rw [hmain, hstore]
    simp [Nat.sub_sub_self (le_of_lt hK)]
  · intro d hd
    rw [hmain]
    exact hd

/-- C6 (witness): two creations, prune to one. -/
theorem C6_witness :
    cleanup_old_backups
        (createMany [] [] [⟨"a", "1", 0, []⟩, ⟨"b", "2", 1, []⟩]) 1
        = (createMany [] [] [⟨"a", "1", 0, []⟩, ⟨"b", "2", 1, []⟩]).drop
            (([⟨"a", "1", 0, []⟩, ⟨"b", "2", 1, []⟩] : List CreateCall).length - 1)
    ∧ (cleanup_old_backups
        (createMany [] [] [⟨"a", "1", 0, []⟩, ⟨"b", "2", 1, []⟩]) 1).length = 1
    ∧ ∀ d ∈ (createMany [] [] [⟨"a", "1", 0, []⟩, ⟨"b", "2", 1, []⟩]).drop
          (([⟨"a", "1", 0, []⟩, ⟨"b", "2", 1, []⟩] : List CreateCall).length - 1),
        d ∈ cleanup_old_backups
          (createMany [] [] [⟨"a", "1", 0, []⟩, ⟨"b", "2", 1, []⟩]) 1 :=
  C6_prune_keeps_newest [] [⟨"a", "1", 0, []⟩, ⟨"b", "2", 1, []⟩] 1
    (by decide) (by decide) (by decide)

end MXTweaks
